import Mathlib

/-!
Verification development for the "number-adder" repository: a hosted CRUD
HTTP API (registration, login, arithmetic endpoints, calculation history,
account export/delete) and a thin mobile client consuming it.

The repository snapshot contains the mobile client (TypeScript), the privacy
policy and task documents; the backend service itself is not part of the
snapshot.  Client-side behaviour is embedded directly from the client source
(`ApiClient.request`, the auth context `refreshUser`/`logout`).  The backend
is modelled from the specification: a store of users, API keys and
calculation records, and an event-step semantics for the mutating endpoints.
-/

/-! ## Client-side embedding (from the mobile client source) -/

/-- Parsed JSON body of an HTTP response as seen by `ApiClient.request`:
the optional `detail` field consulted on error, plus the remaining fields
kept opaque. -/
structure JsonBody where
  detail : Option String
  fields : List (String × String)
deriving DecidableEq, Repr

/-- An HTTP response as consumed by `ApiClient.request`: the `ok` flag and
the already-parsed JSON body (`const data = await response.json()`). -/
structure HttpResp where
  ok : Bool
  body : JsonBody
deriving DecidableEq, Repr

/-- JavaScript `data.detail || 'Request failed'`: the `detail` field when it
is present and truthy (a non-empty string), the fallback otherwise. -/
def jsDetailOr (detail : Option String) (fallback : String) : String :=
  match detail with
  | some s => if s = "" then fallback else s
  | none => fallback

/-- `ApiClient.request` (src/unnamed/part_002, lines 46-71): on a non-ok
response it throws `new Error(data.detail || 'Request failed')`; on an ok
response it returns the parsed body. -/
def request (resp : HttpResp) : Except String JsonBody :=
  if resp.ok then .ok resp.body
  else .error (jsDetailOr resp.body.detail "Request failed")

/-- `UserData` interface of the client (src/unnamed/part_002). -/
structure UserData where
  id : Nat
  email : String
  is_premium : Bool
  created_at : String
deriving DecidableEq, Repr

/-- Client-side auth state held by the `AuthProvider` (mobile `AuthContext`):
the token in secure storage, the token installed on the API client, the
cached user and the `isAuthenticated` flag. -/
structure ClientState where
  storedToken : Option String
  apiToken : Option String
  user : Option UserData
  isAuthenticated : Bool
deriving DecidableEq, Repr

/-- `logout` of the `AuthContext`: deletes the stored token, clears the API
client token, clears the user and sets `isAuthenticated` to false. -/
def logout (_s : ClientState) : ClientState :=
  { storedToken := none, apiToken := none, user := none, isAuthenticated := false }

/-- `refreshUser` of the `AuthContext`: calls `api.getMe()`; on success it
stores the returned user, on any error it calls `logout`. -/
def refreshUser (getMeResult : Except String UserData) (s : ClientState) : ClientState :=
  match getMeResult with
  | .ok u => { s with user := some u }
  | .error _ => logout s

/-! ## Backend model

Modelled from the spec: the backend service (FastAPI application with the
credential store, token issuer, API key manager, authorization middleware
and account lifecycle service) is not under the repository snapshot; the
definitions below follow spec sections 3-7. -/

/-- Modelled from the spec: the error taxonomy of section 7, plus the
premium-required error used by the `multiply` gate. -/
inductive ApiError where
  | invalidCredentials
  | identityVerificationFailed
  | tokenExpired
  | tokenInvalid
  | keyInvalid
  | unauthorized
  | notFound
  | alreadyExists
  | validationError
  | premiumRequired
deriving DecidableEq, Repr

/-- Modelled from the spec: a User row — unique id, email, hashed password,
premium flag, optional federated external identity, creation time. -/
structure User where
  id : Nat
  email : String
  pwHash : String
  isPremium : Bool
  extId : Option String
  createdAt : Nat
deriving DecidableEq, Repr

/-- Modelled from the spec: an ApiKey row — opaque value, owning user id,
active/revoked state, creation time. -/
structure ApiKey where
  value : String
  owner : Nat
  active : Bool
  createdAt : Nat
deriving DecidableEq, Repr

/-- Modelled from the spec: a Calculation row — immutable record of one
arithmetic operation, owned by exactly one user (shape follows the client's
`Calculation` interface in src/unnamed/part_002). -/
structure Calculation where
  id : Nat
  owner : Nat
  a : Int
  b : Int
  result : Int
  operation : String
  createdAt : Nat
deriving DecidableEq, Repr

/-- Modelled from the spec: the single logical data store — user, key and
calculation tables with auto-increment counters, a logical clock, and the
set of key values ever generated (the idealisation of cryptographically
random key generation: a fresh value never repeats an earlier one). -/
structure Store where
  nextId : Nat
  users : List User
  apiKeys : List ApiKey
  calcs : List Calculation
  minted : List String
  nextCalcId : Nat
  clock : Nat
deriving DecidableEq, Repr

/-- The empty initial store. -/
def initStore : Store :=
  { nextId := 0, users := [], apiKeys := [], calcs := [], minted := []
    nextCalcId := 0, clock := 0 }

/-- Whether a user with the given id exists in the store. -/
def userExists (s : Store) (uid : Nat) : Bool :=
  s.users.any (fun u => u.id == uid)

/-- Look up a user by id. -/
def findUser (s : Store) (uid : Nat) : Option User :=
  s.users.find? (fun u => u.id == uid)

/-- Whether some user already has the given email. -/
def emailTaken (s : Store) (em : String) : Bool :=
  s.users.any (fun u => u.email == em)

/-- Whether a key row with the given value is stored (active or revoked). -/
def keyStored (s : Store) (v : String) : Bool :=
  s.apiKeys.any (fun k => k.value == v)

/-- Modelled from the spec: `validate(apiKey) -> UserId`, failing with
`KeyInvalid` for unknown or revoked keys. -/
def validateKey (s : Store) (v : String) : Except ApiError Nat :=
  match s.apiKeys.find? (fun k => k.value == v) with
  | some k => if k.active then .ok k.owner else .error .keyInvalid
  | none => .error .keyInvalid

/-- Whether the user with the given id exists and is premium. -/
def isPremiumUser (s : Store) (uid : Nat) : Bool :=
  match findUser s uid with
  | some u => u.isPremium
  | none => false

/-- The calculation rows owned by a given user. -/
def calcsOf (s : Store) (uid : Nat) : List Calculation :=
  s.calcs.filter (fun c => c.owner == uid)

/-- Modelled from the spec: responses of the mutating endpoints. -/
inductive Resp where
  | unit
  | uid (n : Nat)
  | key (v : String)
  | num (r : Int)
deriving DecidableEq, Repr

/-- Modelled from the spec: the mutating requests of the backend; the value
handed to `mintKey` stands for the freshly generated random key string. -/
inductive Event where
  | register (em pw : String)
  | fedLogin (ext em : String)
  | setPremium (uid : Nat) (p : Bool)
  | mintKey (uid : Nat) (v : String)
  | revokeKey (v : String)
  | doAdd (key : String) (a b : Int) (c : Option Int)
  | doMultiply (key : String) (a b : Int)
  | deleteUser (uid : Nat)
deriving DecidableEq, Repr

/-- Modelled from the spec: a placeholder for the slow salted password hash
(no claim depends on its value). -/
def hashPw (pw : String) : String := "#" ++ pw

/-- Modelled from the spec: the 2-operand addition before the 3-operand
extension (legacy behaviour the extension must not change). -/
def addLegacy (a b : Int) : Int := a + b

/-- Modelled from the spec: `POST /add {a, b[, c]}` — accepts 2 or 3
operands, the third optional and defaulting to 0. -/
def addOp (a b : Int) (c : Option Int) : Int := a + b + c.getD 0

/-- Modelled from the spec: `register` — fails with `AlreadyExists` on a
duplicate email, otherwise inserts a fresh user. -/
def execRegister (s : Store) (em pw : String) : Except ApiError Resp × Store :=
  if emailTaken s em then (.error .alreadyExists, s)
  else
    (.ok (.uid s.nextId),
      { s with
        users := { id := s.nextId, email := em, pwHash := hashPw pw
                   isPremium := false, extId := none, createdAt := s.clock } :: s.users
        nextId := s.nextId + 1
        clock := s.clock + 1 })

/-- Modelled from the spec: federated login — exchanges a verified external
identity for the local user bound to it, creating one on first sign-in. -/
def execFedLogin (s : Store) (ext em : String) : Except ApiError Resp × Store :=
  match s.users.find? (fun u => u.extId == some ext) with
  | some u => (.ok (.uid u.id), s)
  | none =>
    (.ok (.uid s.nextId),
      { s with
        users := { id := s.nextId, email := em, pwHash := ""
                   isPremium := false, extId := some ext, createdAt := s.clock } :: s.users
        nextId := s.nextId + 1
        clock := s.clock + 1 })

/-- Modelled from the spec: premium-status change of an existing user. -/
def execSetPremium (s : Store) (uid : Nat) (p : Bool) : Except ApiError Resp × Store :=
  if userExists s uid then
    (.ok .unit,
      { s with
        users := s.users.map (fun u => if u.id == uid then { u with isPremium := p } else u)
        clock := s.clock + 1 })
  else (.error .notFound, s)

/-- Modelled from the spec: `mint(userId) -> ApiKey` — stores the generated
value active and bound to the user, actively checking it against stored
keys for collision. -/
def execMintKey (s : Store) (uid : Nat) (v : String) : Except ApiError Resp × Store :=
  if userExists s uid then
    if keyStored s v then (.error .alreadyExists, s)
    else
      (.ok (.key v),
        { s with
          apiKeys := { value := v, owner := uid, active := true, createdAt := s.clock } :: s.apiKeys
          minted := v :: s.minted
          clock := s.clock + 1 })
  else (.error .notFound, s)

/-- Modelled from the spec: `revoke(apiKey)` marks the stored key inactive;
revocation is permanent, there is no un-revoke. -/
def execRevokeKey (s : Store) (v : String) : Except ApiError Resp × Store :=
  if keyStored s v then
    (.ok .unit,
      { s with
        apiKeys := s.apiKeys.map (fun k => if k.value == v then { k with active := false } else k)
        clock := s.clock + 1 })
  else (.error .keyInvalid, s)

/-- Modelled from the spec: `POST /add` — validates the API key, computes
the sum with the optional third operand defaulting to 0, and records an
immutable calculation row for the key's owner. -/
def execDoAdd (s : Store) (key : String) (a b : Int) (c : Option Int) :
    Except ApiError Resp × Store :=
  match validateKey s key with
  | .error e => (.error e, s)
  | .ok uid =>
    (.ok (.num (addOp a b c)),
      { s with
        calcs := { id := s.nextCalcId, owner := uid, a := a, b := b
                   result := addOp a b c, operation := "add", createdAt := s.clock } :: s.calcs
        nextCalcId := s.nextCalcId + 1
        clock := s.clock + 1 })

/-- Modelled from the spec: `POST /multiply` — validates the API key, fails
with the premium-required error for a non-premium owner, otherwise returns
the product and records a calculation row. -/
def execDoMultiply (s : Store) (key : String) (a b : Int) : Except ApiError Resp × Store :=
  match validateKey s key with
  | .error e => (.error e, s)
  | .ok uid =>
    if isPremiumUser s uid then
      (.ok (.num (a * b)),
        { s with
          calcs := { id := s.nextCalcId, owner := uid, a := a, b := b
                     result := a * b, operation := "multiply", createdAt := s.clock } :: s.calcs
          nextCalcId := s.nextCalcId + 1
          clock := s.clock + 1 })
    else (.error .premiumRequired, s)

/-- Modelled from the spec: `delete(userId)` — fails with `NotFound` for a
nonexistent user, otherwise removes the user row and every owned ApiKey and
Calculation row in one atomic transaction. -/
def execDeleteUser (s : Store) (uid : Nat) : Except ApiError Resp × Store :=
  if userExists s uid then
    (.ok .unit,
      { s with
        users := s.users.filter (fun u => !(u.id == uid))
        apiKeys := s.apiKeys.filter (fun k => !(k.owner == uid))
        calcs := s.calcs.filter (fun c => !(c.owner == uid))
        clock := s.clock + 1 })
  else (.error .notFound, s)

/-- Modelled from the spec: one mutating request against the store; a failed
request leaves the store unchanged (every mutation is a single
transaction). -/
def exec (s : Store) : Event → Except ApiError Resp × Store
  | .register em pw => execRegister s em pw
  | .fedLogin ext em => execFedLogin s ext em
  | .setPremium uid p => execSetPremium s uid p
  | .mintKey uid v => execMintKey s uid v
  | .revokeKey v => execRevokeKey s v
  | .doAdd key a b c => execDoAdd s key a b c
  | .doMultiply key a b => execDoMultiply s key a b
  | .deleteUser uid => execDeleteUser s uid

/-- The store after one request. -/
def step (s : Store) (e : Event) : Store := (exec s e).2

/-- The idealisation of cryptographically random key generation: the value
handed to `mintKey` has never been generated before. -/
def WfEvent (s : Store) : Event → Prop
  | .mintKey _ v => v ∉ s.minted
  | _ => True

/-- Run a list of requests. -/
def run (s : Store) : List Event → Store
  | [] => s
  | e :: t => run (step s e) t

/-- A trace whose generated key values are fresh at each point. -/
def WfTrace : Store → List Event → Prop
  | _, [] => True
  | s, e :: t => WfEvent s e ∧ WfTrace (step s e) t

/-- A store reachable from the empty store by a well-formed trace. -/
def Reachable (s : Store) : Prop :=
  ∃ t, WfTrace initStore t ∧ run initStore t = s

/-! ### Bearer tokens and token-gated account operations -/

/-- Modelled from the spec: a bearer token — a short-lived signed assertion
of a user's identity; not persisted, verified by signature and expiry. -/
structure BearerToken where
  uid : Nat
  exp : Nat
  sigOk : Bool
deriving DecidableEq, Repr

/-- Modelled from the spec: `validateToken(token) -> UserId` — fails with
`TokenInvalid` on a bad signature, `TokenExpired` past expiry, and the
claimed identity must match an existing, non-deleted user at validation
time (`NotFound` otherwise). -/
def validateToken (s : Store) (now : Nat) (t : BearerToken) : Except ApiError Nat :=
  if !t.sigOk then .error .tokenInvalid
  else if t.exp < now then .error .tokenExpired
  else if userExists s t.uid then .ok t.uid
  else .error .notFound

/-- Modelled from the spec: `view(userId) -> UserRecord` — current account
fields, no calculation data. -/
def viewUser (s : Store) (uid : Nat) : Except ApiError User :=
  match findUser s uid with
  | some u => .ok u
  | none => .error .notFound

/-- Modelled from the spec: `export(userId) -> FullRecord` — the user fields
plus the complete, unfiltered list of owned calculation rows. -/
def exportData (s : Store) (uid : Nat) : Except ApiError (User × List Calculation) :=
  match findUser s uid with
  | some u => .ok (u, calcsOf s uid)
  | none => .error .notFound

/-- Modelled from the spec: `GET /me` — bearer-token validation followed by
the account view. -/
def getMe (s : Store) (now : Nat) (t : BearerToken) : Except ApiError User :=
  (validateToken s now t).bind (viewUser s)

/-- Modelled from the spec: `GET /me/export` — bearer-token validation
followed by the full export. -/
def exportViaToken (s : Store) (now : Nat) (t : BearerToken) :
    Except ApiError (User × List Calculation) :=
  (validateToken s now t).bind (exportData s)

/-- Modelled from the spec: `DELETE /me` — bearer-token validation followed
by the cascading account deletion. -/
def deleteViaToken (s : Store) (now : Nat) (t : BearerToken) : Except ApiError Resp × Store :=
  match validateToken s now t with
  | .error e => (.error e, s)
  | .ok uid => execDeleteUser s uid

/-! ### Authorization middleware -/

/-- Modelled from the spec: the two credential kinds of the per-route
policy. -/
inductive CredKind where
  | bearerOnly
  | apiKeyOnly
deriving DecidableEq, Repr

/-- Modelled from the spec: what a request presents — a bearer token, an
API key, or nothing. -/
inductive Presented where
  | bearer
  | apiKey
  | absent
deriving DecidableEq, Repr

/-- Modelled from the spec: the exposed operations of the policy table. -/
inductive ApiOp where
  | mintKey
  | revokeKey
  | viewAccount
  | exportAccount
  | deleteAccount
  | addNumbers
  | multiplyNumbers
  | readHistory
deriving DecidableEq, Repr

/-- Modelled from the spec: the per-route policy table — account-management
operations require a bearer token only, product operations an API key
only. -/
def requiredCred : ApiOp → CredKind
  | .mintKey => .bearerOnly
  | .revokeKey => .bearerOnly
  | .viewAccount => .bearerOnly
  | .exportAccount => .bearerOnly
  | .deleteAccount => .bearerOnly
  | .addNumbers => .apiKeyOnly
  | .multiplyNumbers => .apiKeyOnly
  | .readHistory => .apiKeyOnly

/-- Whether the presented credential is of the required kind. -/
def credMatches : CredKind → Presented → Bool
  | .bearerOnly, .bearer => true
  | .apiKeyOnly, .apiKey => true
  | _, _ => false

/-- Modelled from the spec: the authorization middleware — dispatches on the
declared route requirement and rejects a request presenting the wrong
credential kind, or none, with `Unauthorized`. -/
def authorize (op : ApiOp) (p : Presented) : Except ApiError Unit :=
  if credMatches (requiredCred op) p then .ok () else .error .unauthorized


/-! ### Derived predicates used by the preservation lemmas -/

/-- A user id that is absent and already below the auto-increment counter:
such an id can never denote a user again. -/
def GoneUser (s : Store) (uid : Nat) : Prop :=
  userExists s uid = false ∧ uid < s.nextId

/-- A key value that was generated once but has no stored row any more
(its owner was deleted): freshness of generated values keeps it out of the
key table forever. -/
def GoneKey (s : Store) (v : String) : Prop :=
  v ∈ s.minted ∧ ∀ k ∈ s.apiKeys, k.value ≠ v

/-- A key value that was generated once and whose stored rows are all
revoked: no later request reactivates it. -/
def DeadKey (s : Store) (v : String) : Prop :=
  v ∈ s.minted ∧ ∀ k ∈ s.apiKeys, k.value = v → k.active = false

/-- Whether the given request, executed against the given store, creates a
calculation row owned by the given user: a successful arithmetic call
authenticated with a key owned by that user. -/
def createsCalcFor (s : Store) (uid : Nat) : Event → Bool
  | .doAdd key _ _ _ =>
    match validateKey s key with
    | .ok u => u == uid
    | .error _ => false
  | .doMultiply key _ _ =>
    match validateKey s key with
    | .ok u => (u == uid) && isPremiumUser s u
    | .error _ => false
  | _ => false

/-- How many calculation rows a trace creates for the given user. -/
def countCreated (s : Store) (uid : Nat) : List Event → Nat
  | [] => 0
  | e :: t => (if createsCalcFor s uid e then 1 else 0) + countCreated (step s e) uid t

/-- A sample trace: two registrations, a premium upgrade, two key mints and
three arithmetic calls, used to build concrete stores in examples. -/
def demoTrace : List Event :=
  [.register "alice@example.com" "pw1",
   .register "bob@example.com" "pw2",
   .setPremium 0 true,
   .mintKey 0 "KEYA",
   .mintKey 1 "KEYB",
   .doAdd "KEYA" 2 3 none,
   .doAdd "KEYA" 2 3 (some 4),
   .doMultiply "KEYA" 2 3]

/-- The store reached by running the sample trace. -/
def demoStore : Store := run initStore demoTrace

/-! ## Basic lemmas about the store predicates -/

theorem userExists_iff (s : Store) (uid : Nat) :
    userExists s uid = true ↔ ∃ u ∈ s.users, u.id = uid := by
  simp [userExists, List.any_eq_true]

theorem userExists_eq_false_iff (s : Store) (uid : Nat) :
    userExists s uid = false ↔ ∀ u ∈ s.users, u.id ≠ uid := by
  rw [← Bool.not_eq_true, userExists_iff]
  simp

theorem keyStored_iff (s : Store) (v : String) :
    keyStored s v = true ↔ ∃ k ∈ s.apiKeys, k.value = v := by
  simp [keyStored, List.any_eq_true]

theorem keyStored_eq_false_iff (s : Store) (v : String) :
    keyStored s v = false ↔ ∀ k ∈ s.apiKeys, k.value ≠ v := by
  rw [← Bool.not_eq_true, keyStored_iff]
  simp

theorem validateKey_eq_ok (s : Store) (v : String) (uid : Nat)
    (h : validateKey s v = .ok uid) :
    ∃ k ∈ s.apiKeys, k.value = v ∧ k.active = true ∧ k.owner = uid := by
  unfold validateKey at h
  cases hf : s.apiKeys.find? (fun k => k.value == v) with
  | none => simp [hf] at h
  | some k =>
    have hmem := List.mem_of_find?_eq_some hf
    have hval : k.value = v := by simpa using List.find?_some hf
    by_cases ha : k.active = true
    · simp [hf, ha] at h
      exact ⟨k, hmem, hval, ha, h⟩
    · simp [hf, ha] at h

theorem findUser_of_userExists (s : Store) (uid : Nat) (h : userExists s uid = true) :
    ∃ u, findUser s uid = some u ∧ u ∈ s.users ∧ u.id = uid := by
  rw [userExists_iff] at h
  obtain ⟨u, hu, hid⟩ := h
  cases hf : findUser s uid with
  | none =>
    unfold findUser at hf
    rw [List.find?_eq_none] at hf
    exact absurd (by simp [hid]) (hf u hu)
  | some w =>
    refine ⟨w, rfl, List.mem_of_find?_eq_some hf, ?_⟩
    simpa using List.find?_some hf

/-! ## The reachable-state invariant -/

/-- The invariant maintained by every backend request: ids are below the
auto-increment counters, every key and calculation row is owned by an
existing user, stored key values come from the generated pool and are
pairwise distinct, calculation ids are pairwise distinct, and no two users
share a federated external identity. -/
structure StoreInv (s : Store) : Prop where
  usersLt : ∀ u ∈ s.users, u.id < s.nextId
  keysOwned : ∀ k ∈ s.apiKeys, ∃ u ∈ s.users, u.id = k.owner
  calcsOwned : ∀ c ∈ s.calcs, ∃ u ∈ s.users, u.id = c.owner
  keysMinted : ∀ k ∈ s.apiKeys, k.value ∈ s.minted
  keysNodup : (s.apiKeys.map ApiKey.value).Nodup
  calcsLt : ∀ c ∈ s.calcs, c.id < s.nextCalcId
  calcsNodup : (s.calcs.map Calculation.id).Nodup
  extUnique : ∀ u1 ∈ s.users, ∀ u2 ∈ s.users, ∀ es : String,
      u1.extId = some es → u2.extId = some es → u1 = u2

theorem inv_initStore : StoreInv initStore := by
  constructor <;> simp [initStore]

theorem inv_execRegister (s : Store) (em pw : String) (h : StoreInv s) :
    StoreInv (execRegister s em pw).2 := by
  unfold execRegister
  split
  · exact h
  · refine ⟨?_, ?_, ?_, h.keysMinted, h.keysNodup, h.calcsLt, h.calcsNodup, ?_⟩
    · intro u hu
      rcases List.mem_cons.mp hu with rfl | hu
      · simp
      · exact Nat.lt_succ_of_lt (h.usersLt u hu)
    · intro k hk
      obtain ⟨u, hu, hid⟩ := h.keysOwned k hk
      exact ⟨u, List.mem_cons_of_mem _ hu, hid⟩
    · intro c hc
      obtain ⟨u, hu, hid⟩ := h.calcsOwned c hc
      exact ⟨u, List.mem_cons_of_mem _ hu, hid⟩
    · intro u1 hu1 u2 hu2 es h1 h2
      rcases List.mem_cons.mp hu1 with rfl | hu1
      · simp at h1
      · rcases List.mem_cons.mp hu2 with rfl | hu2
        · simp at h2
        · exact h.extUnique u1 hu1 u2 hu2 es h1 h2

theorem inv_execFedLogin (s : Store) (ext em : String) (h : StoreInv s) :
    StoreInv (execFedLogin s ext em).2 := by
  unfold execFedLogin
  cases hf : s.users.find? (fun u => u.extId == some ext) with
  | some u => exact h
  | none =>
    rw [List.find?_eq_none] at hf
    refine ⟨?_, ?_, ?_, h.keysMinted, h.keysNodup, h.calcsLt, h.calcsNodup, ?_⟩
    · intro u hu
      rcases List.mem_cons.mp hu with rfl | hu
      · simp
      · exact Nat.lt_succ_of_lt (h.usersLt u hu)
    · intro k hk
      obtain ⟨u, hu, hid⟩ := h.keysOwned k hk
      exact ⟨u, List.mem_cons_of_mem _ hu, hid⟩
    · intro c hc
      obtain ⟨u, hu, hid⟩ := h.calcsOwned c hc
      exact ⟨u, List.mem_cons_of_mem _ hu, hid⟩
    · intro u1 hu1 u2 hu2 es h1 h2
      rcases List.mem_cons.mp hu1 with rfl | hu1
      · rcases List.mem_cons.mp hu2 with rfl | hu2
        · rfl
        · simp at h1
          exact absurd (by simp [h2, h1]) (hf u2 hu2)
      · rcases List.mem_cons.mp hu2 with rfl | hu2
        · simp at h2
          exact absurd (by simp [h1, h2]) (hf u1 hu1)
        · exact h.extUnique u1 hu1 u2 hu2 es h1 h2

theorem premUpd_id (uid : Nat) (p : Bool) (u : User) :
    (if u.id == uid then { u with isPremium := p } else u).id = u.id := by
  by_cases hc : u.id = uid <;> simp [hc]

theorem premUpd_extId (uid : Nat) (p : Bool) (u : User) :
    (if u.id == uid then { u with isPremium := p } else u).extId = u.extId := by
  by_cases hc : u.id = uid <;> simp [hc]

theorem inv_execSetPremium (s : Store) (uid : Nat) (p : Bool) (h : StoreInv s) :
    StoreInv (execSetPremium s uid p).2 := by
  unfold execSetPremium
  split
  · refine ⟨?_, ?_, ?_, h.keysMinted, h.keysNodup, h.calcsLt, h.calcsNodup, ?_⟩
    · intro u hu
      obtain ⟨w, hw, rfl⟩ := List.mem_map.mp hu
      simp only [premUpd_id]
      exact h.usersLt w hw
    · intro k hk
      obtain ⟨u, hu, hid⟩ := h.keysOwned k hk
      exact ⟨_, List.mem_map_of_mem _ hu, by simp only [premUpd_id]; exact hid⟩
    · intro c hc
      obtain ⟨u, hu, hid⟩ := h.calcsOwned c hc
      exact ⟨_, List.mem_map_of_mem _ hu, by simp only [premUpd_id]; exact hid⟩
    · intro u1 hu1 u2 hu2 es h1 h2
      obtain ⟨w1, hw1, rfl⟩ := List.mem_map.mp hu1
      obtain ⟨w2, hw2, rfl⟩ := List.mem_map.mp hu2
      simp only [premUpd_extId] at h1 h2
      rw [h.extUnique w1 hw1 w2 hw2 es h1 h2]
  · exact h

theorem inv_execMintKey (s : Store) (uid : Nat) (v : String) (h : StoreInv s) :
    StoreInv (execMintKey s uid v).2 := by
  unfold execMintKey
  split
  · rename_i hex
    split
    · exact h
    · rename_i hks
      refine ⟨h.usersLt, ?_, h.calcsOwned, ?_, ?_, h.calcsLt, h.calcsNodup, h.extUnique⟩
      · intro k hk
        rcases List.mem_cons.mp hk with rfl | hk
        · exact (userExists_iff s uid).mp hex
        · exact h.keysOwned k hk
      · intro k hk
        rcases List.mem_cons.mp hk with rfl | hk
        · exact List.mem_cons_self _ _
        · exact List.mem_cons_of_mem _ (h.keysMinted k hk)
      · rw [List.map_cons, List.nodup_cons]
        refine ⟨?_, h.keysNodup⟩
        intro hmem
        obtain ⟨k, hk, hkv⟩ := List.mem_map.mp hmem
        rw [Bool.not_eq_true] at hks
        exact (keyStored_eq_false_iff s v).mp hks k hk hkv
  · exact h

theorem revokeUpd_value (v : String) (k : ApiKey) :
    (if k.value == v then { k with active := false } else k).value = k.value := by
  by_cases hc : k.value = v <;> simp [hc]

theorem revokeUpd_owner (v : String) (k : ApiKey) :
    (if k.value == v then { k with active := false } else k).owner = k.owner := by
  by_cases hc : k.value = v <;> simp [hc]

theorem inv_execRevokeKey (s : Store) (v : String) (h : StoreInv s) :
    StoreInv (execRevokeKey s v).2 := by
  unfold execRevokeKey
  split
  · have hmapval :
        (s.apiKeys.map (fun k => if k.value == v then { k with active := false } else k)).map
            ApiKey.value =
          s.apiKeys.map ApiKey.value := by
      rw [List.map_map]
      exact List.map_congr_left (fun k _ => revokeUpd_value v k)
    refine ⟨h.usersLt, ?_, h.calcsOwned, ?_, ?_, h.calcsLt, h.calcsNodup, h.extUnique⟩
    · intro k hk
      obtain ⟨w, hw, rfl⟩ := List.mem_map.mp hk
      simp only [revokeUpd_owner]
      exact h.keysOwned w hw
    · intro k hk
      obtain ⟨w, hw, rfl⟩ := List.mem_map.mp hk
      simp only [revokeUpd_value]
      exact h.keysMinted w hw
    · rw [hmapval]; exact h.keysNodup
  · exact h

theorem inv_execDoAdd (s : Store) (key : String) (a b : Int) (c : Option Int)
    (h : StoreInv s) : StoreInv (execDoAdd s key a b c).2 := by
  unfold execDoAdd
  cases hv : validateKey s key with
  | error e => exact h
  | ok uid =>
    obtain ⟨k, hk, _, _, hko⟩ := validateKey_eq_ok s key uid hv
    refine ⟨h.usersLt, h.keysOwned, ?_, h.keysMinted, h.keysNodup, ?_, ?_, h.extUnique⟩
    · intro cc hcc
      rcases List.mem_cons.mp hcc with rfl | hcc
      · exact hko ▸ h.keysOwned k hk
      · exact h.calcsOwned cc hcc
    · intro cc hcc
      rcases List.mem_cons.mp hcc with rfl | hcc
      · simp
      · exact Nat.lt_succ_of_lt (h.calcsLt cc hcc)
    · rw [List.map_cons, List.nodup_cons]
      refine ⟨?_, h.calcsNodup⟩
      intro hmem
      obtain ⟨cc, hcc, hcid⟩ := List.mem_map.mp hmem
      exact absurd (by simpa using hcid) (Nat.ne_of_lt (h.calcsLt cc hcc))

theorem inv_execDoMultiply (s : Store) (key : String) (a b : Int)
    (h : StoreInv s) : StoreInv (execDoMultiply s key a b).2 := by
  unfold execDoMultiply
  cases hv : validateKey s key with
  | error e => exact h
  | ok uid =>
    dsimp only
    split
    · obtain ⟨k, hk, _, _, hko⟩ := validateKey_eq_ok s key uid hv
      refine ⟨h.usersLt, h.keysOwned, ?_, h.keysMinted, h.keysNodup, ?_, ?_, h.extUnique⟩
      · intro cc hcc
        rcases List.mem_cons.mp hcc with rfl | hcc
        · exact hko ▸ h.keysOwned k hk
        · exact h.calcsOwned cc hcc
      · intro cc hcc
        rcases List.mem_cons.mp hcc with rfl | hcc
        · simp
        · exact Nat.lt_succ_of_lt (h.calcsLt cc hcc)
      · rw [List.map_cons, List.nodup_cons]
        refine ⟨?_, h.calcsNodup⟩
        intro hmem
        obtain ⟨cc, hcc, hcid⟩ := List.mem_map.mp hmem
        exact absurd (by simpa using hcid) (Nat.ne_of_lt (h.calcsLt cc hcc))
    · exact h

theorem inv_execDeleteUser (s : Store) (uid : Nat) (h : StoreInv s) :
    StoreInv (execDeleteUser s uid).2 := by
  unfold execDeleteUser
  split
  · refine ⟨?_, ?_, ?_, ?_, ?_, ?_, ?_, ?_⟩
    · intro u hu
      exact h.usersLt u (List.mem_of_mem_filter hu)
    · intro k hk
      have hk1 := List.mem_of_mem_filter hk
      have hk2 := List.of_mem_filter hk
      simp at hk2
      obtain ⟨u, hu, hid⟩ := h.keysOwned k hk1
      refine ⟨u, List.mem_filter.mpr ⟨hu, by simp [hid, hk2]⟩, hid⟩
    · intro cc hcc
      have hc1 := List.mem_of_mem_filter hcc
      have hc2 := List.of_mem_filter hcc
      simp at hc2
      obtain ⟨u, hu, hid⟩ := h.calcsOwned cc hc1
      refine ⟨u, List.mem_filter.mpr ⟨hu, by simp [hid, hc2]⟩, hid⟩
    · intro k hk
      exact h.keysMinted k (List.mem_of_mem_filter hk)
    · exact h.keysNodup.sublist ((List.filter_sublist _).map _)
    · intro cc hcc
      exact h.calcsLt cc (List.mem_of_mem_filter hcc)
    · exact h.calcsNodup.sublist ((List.filter_sublist _).map _)
    · intro u1 hu1 u2 hu2 es h1 h2
      exact h.extUnique u1 (List.mem_of_mem_filter hu1) u2 (List.mem_of_mem_filter hu2) es h1 h2
  · exact h

/-! ### Explicit step equations, one per request kind -/

theorem step_register (s : Store) (em pw : String) :
    step s (.register em pw) =
      if emailTaken s em then s
      else
        { s with
          users := { id := s.nextId, email := em, pwHash := hashPw pw
                     isPremium := false, extId := none, createdAt := s.clock } :: s.users
          nextId := s.nextId + 1
          clock := s.clock + 1 } := by
  simp only [step, exec, execRegister]
  split <;> rfl

theorem step_fedLogin (s : Store) (ext em : String) :
    step s (.fedLogin ext em) =
      match s.users.find? (fun u => u.extId == some ext) with
      | some _ => s
      | none =>
        { s with
          users := { id := s.nextId, email := em, pwHash := ""
                     isPremium := false, extId := some ext, createdAt := s.clock } :: s.users
          nextId := s.nextId + 1
          clock := s.clock + 1 } := by
  simp only [step, exec, execFedLogin]
  cases s.users.find? (fun u => u.extId == some ext) <;> rfl

theorem step_setPremium (s : Store) (uid : Nat) (p : Bool) :
    step s (.setPremium uid p) =
      if userExists s uid then
        { s with
          users := s.users.map (fun u => if u.id == uid then { u with isPremium := p } else u)
          clock := s.clock + 1 }
      else s := by
  simp only [step, exec, execSetPremium]
  split <;> rfl

theorem step_mintKey (s : Store) (uid : Nat) (v : String) :
    step s (.mintKey uid v) =
      if userExists s uid then
        if keyStored s v then s
        else
          { s with
            apiKeys := { value := v, owner := uid, active := true
                         createdAt := s.clock } :: s.apiKeys
            minted := v :: s.minted
            clock := s.clock + 1 }
      else s := by
  simp only [step, exec, execMintKey]
  split
  · split <;> rfl
  · rfl

theorem step_revokeKey (s : Store) (v : String) :
    step s (.revokeKey v) =
      if keyStored s v then
        { s with
          apiKeys := s.apiKeys.map (fun k => if k.value == v then { k with active := false } else k)
          clock := s.clock + 1 }
      else s := by
  simp only [step, exec, execRevokeKey]
  split <;> rfl

theorem step_doAdd (s : Store) (key : String) (a b : Int) (c : Option Int) :
    step s (.doAdd key a b c) =
      match validateKey s key with
      | .error _ => s
      | .ok uid =>
        { s with
          calcs := { id := s.nextCalcId, owner := uid, a := a, b := b
                     result := addOp a b c, operation := "add", createdAt := s.clock } :: s.calcs
          nextCalcId := s.nextCalcId + 1
          clock := s.clock + 1 } := by
  simp only [step, exec, execDoAdd]
  cases validateKey s key <;> rfl

theorem step_doMultiply (s : Store) (key : String) (a b : Int) :
    step s (.doMultiply key a b) =
      match validateKey s key with
      | .error _ => s
      | .ok uid =>
        if isPremiumUser s uid then
          { s with
            calcs := { id := s.nextCalcId, owner := uid, a := a, b := b
                       result := a * b, operation := "multiply", createdAt := s.clock } :: s.calcs
            nextCalcId := s.nextCalcId + 1
            clock := s.clock + 1 }
        else s := by
  simp only [step, exec, execDoMultiply]
  cases validateKey s key with
  | error e => rfl
  | ok uid =>
    dsimp only
    split <;> rfl

theorem step_deleteUser (s : Store) (uid : Nat) :
    step s (.deleteUser uid) =
      if userExists s uid then
        { s with
          users := s.users.filter (fun u => !(u.id == uid))
          apiKeys := s.apiKeys.filter (fun k => !(k.owner == uid))
          calcs := s.calcs.filter (fun c => !(c.owner == uid))
          clock := s.clock + 1 }
      else s := by
  simp only [step, exec, execDeleteUser]
  split <;> rfl

theorem inv_step (s : Store) (e : Event) (h : StoreInv s) : StoreInv (step s e) := by
  cases e with
  | register em pw => exact inv_execRegister s em pw h
  | fedLogin ext em => exact inv_execFedLogin s ext em h
  | setPremium uid p => exact inv_execSetPremium s uid p h
  | mintKey uid v => exact inv_execMintKey s uid v h
  | revokeKey v => exact inv_execRevokeKey s v h
  | doAdd key a b c => exact inv_execDoAdd s key a b c h
  | doMultiply key a b => exact inv_execDoMultiply s key a b h
  | deleteUser uid => exact inv_execDeleteUser s uid h

theorem inv_run (s : Store) (t : List Event) (h : StoreInv s) : StoreInv (run s t) := by
  induction t generalizing s with
  | nil => exact h
  | cons e t ih => exact ih (step s e) (inv_step s e h)

theorem inv_reachable (s : Store) (h : Reachable s) : StoreInv s := by
  obtain ⟨t, _, ht⟩ := h
  exact ht ▸ inv_run initStore t inv_initStore

/-! ### Deleted users stay deleted, revoked or removed keys stay invalid -/

theorem goneUser_step (s : Store) (e : Event) (uid : Nat) (h : GoneUser s uid) :
    GoneUser (step s e) uid := by
  obtain ⟨hne, hlt⟩ := h
  rw [userExists_eq_false_iff] at hne
  cases e with
  | register em pw =>
    rw [step_register]
    split
    · exact ⟨by rw [userExists_eq_false_iff]; exact hne, hlt⟩
    · refine ⟨?_, Nat.lt_succ_of_lt hlt⟩
      rw [userExists_eq_false_iff]
      intro u hu
      rcases List.mem_cons.mp hu with rfl | hu
      · exact fun hc => absurd hc.symm (Nat.ne_of_lt hlt)
      · exact hne u hu
  | fedLogin ext em =>
    rw [step_fedLogin]
    cases s.users.find? (fun u => u.extId == some ext) with
    | some u => exact ⟨by rw [userExists_eq_false_iff]; exact hne, hlt⟩
    | none =>
      refine ⟨?_, Nat.lt_succ_of_lt hlt⟩
      rw [userExists_eq_false_iff]
      intro u hu
      rcases List.mem_cons.mp hu with rfl | hu
      · exact fun hc => absurd hc.symm (Nat.ne_of_lt hlt)
      · exact hne u hu
  | setPremium uid2 p =>
    rw [step_setPremium]
    split
    · refine ⟨?_, hlt⟩
      rw [userExists_eq_false_iff]
      intro u hu
      obtain ⟨w, hw, rfl⟩ := List.mem_map.mp hu
      simp only [premUpd_id]
      exact hne w hw
    · exact ⟨by rw [userExists_eq_false_iff]; exact hne, hlt⟩
  | mintKey uid2 v =>
    rw [step_mintKey]
    have hback : GoneUser s uid := ⟨by rw [userExists_eq_false_iff]; exact hne, hlt⟩
    split
    · split
      · exact hback
      · exact ⟨by rw [userExists_eq_false_iff]; exact hne, hlt⟩
    · exact hback
  | revokeKey v =>
    rw [step_revokeKey]
    split
    · exact ⟨by rw [userExists_eq_false_iff]; exact hne, hlt⟩
    · exact ⟨by rw [userExists_eq_false_iff]; exact hne, hlt⟩
  | doAdd key a b c =>
    rw [step_doAdd]
    cases validateKey s key with
    | error e => exact ⟨by rw [userExists_eq_false_iff]; exact hne, hlt⟩
    | ok uid2 => exact ⟨by rw [userExists_eq_false_iff]; exact hne, hlt⟩
  | doMultiply key a b =>
    rw [step_doMultiply]
    cases validateKey s key with
    | error e => exact ⟨by rw [userExists_eq_false_iff]; exact hne, hlt⟩
    | ok uid2 =>
      dsimp only
      split
      · exact ⟨by rw [userExists_eq_false_iff]; exact hne, hlt⟩
      · exact ⟨by rw [userExists_eq_false_iff]; exact hne, hlt⟩
  | deleteUser uid2 =>
    rw [step_deleteUser]
    split
    · refine ⟨?_, hlt⟩
      rw [userExists_eq_false_iff]
      intro u hu
      exact hne u (List.mem_of_mem_filter hu)
    · exact ⟨by rw [userExists_eq_false_iff]; exact hne, hlt⟩

theorem goneUser_run (s : Store) (t : List Event) (uid : Nat) (h : GoneUser s uid) :
    GoneUser (run s t) uid := by
  induction t generalizing s with
  | nil => exact h
  | cons e t ih => exact ih (step s e) (goneUser_step s e uid h)

theorem goneKey_deadKey (s : Store) (v : String) (h : GoneKey s v) : DeadKey s v :=
  ⟨h.1, fun k hk hv => absurd hv (h.2 k hk)⟩

theorem goneKey_step (s : Store) (e : Event) (v : String) (wf : WfEvent s e)
    (h : GoneKey s v) : GoneKey (step s e) v := by
  obtain ⟨hm, hk⟩ := h
  cases e with
  | register em pw =>
    rw [step_register]; split
    · exact ⟨hm, hk⟩
    · exact ⟨hm, hk⟩
  | fedLogin ext em =>
    rw [step_fedLogin]
    cases s.users.find? (fun u => u.extId == some ext) with
    | some u => exact ⟨hm, hk⟩
    | none => exact ⟨hm, hk⟩
  | setPremium uid p =>
    rw [step_setPremium]; split
    · exact ⟨hm, hk⟩
    · exact ⟨hm, hk⟩
  | mintKey uid v2 =>
    rw [step_mintKey]
    split
    · split
      · exact ⟨hm, hk⟩
      · refine ⟨List.mem_cons_of_mem _ hm, ?_⟩
        intro k hkmem
        rcases List.mem_cons.mp hkmem with rfl | hkmem
        · intro hc
          apply wf
          have hv2 : v2 = v := by simpa using hc
          rw [hv2]
          exact hm
        · exact hk k hkmem
    · exact ⟨hm, hk⟩
  | revokeKey v2 =>
    rw [step_revokeKey]; split
    · refine ⟨hm, ?_⟩
      intro k hkmem
      obtain ⟨w, hw, rfl⟩ := List.mem_map.mp hkmem
      simp only [revokeUpd_value]
      exact hk w hw
    · exact ⟨hm, hk⟩
  | doAdd key a b c =>
    rw [step_doAdd]
    cases validateKey s key with
    | error e => exact ⟨hm, hk⟩
    | ok uid => exact ⟨hm, hk⟩
  | doMultiply key a b =>
    rw [step_doMultiply]
    cases validateKey s key with
    | error e => exact ⟨hm, hk⟩
    | ok uid =>
      dsimp only; split
      · exact ⟨hm, hk⟩
      · exact ⟨hm, hk⟩
  | deleteUser uid =>
    rw [step_deleteUser]; split
    · exact ⟨hm, fun k hkmem => hk k (List.mem_of_mem_filter hkmem)⟩
    · exact ⟨hm, hk⟩

theorem deadKey_step (s : Store) (e : Event) (v : String) (wf : WfEvent s e)
    (h : DeadKey s v) : DeadKey (step s e) v := by
  obtain ⟨hm, hk⟩ := h
  cases e with
  | register em pw =>
    rw [step_register]; split
    · exact ⟨hm, hk⟩
    · exact ⟨hm, hk⟩
  | fedLogin ext em =>
    rw [step_fedLogin]
    cases s.users.find? (fun u => u.extId == some ext) with
    | some u => exact ⟨hm, hk⟩
    | none => exact ⟨hm, hk⟩
  | setPremium uid p =>
    rw [step_setPremium]; split
    · exact ⟨hm, hk⟩
    · exact ⟨hm, hk⟩
  | mintKey uid v2 =>
    rw [step_mintKey]
    split
    · split
      · exact ⟨hm, hk⟩
      · refine ⟨List.mem_cons_of_mem _ hm, ?_⟩
        intro k hkmem
        rcases List.mem_cons.mp hkmem with rfl | hkmem
        · intro hc
          exfalso
          apply wf
          have hv2 : v2 = v := by simpa using hc
          rw [hv2]
          exact hm
        · exact hk k hkmem
    · exact ⟨hm, hk⟩
  | revokeKey v2 =>
    rw [step_revokeKey]; split
    · refine ⟨hm, ?_⟩
      intro k hkmem hv
      obtain ⟨w, hw, rfl⟩ := List.mem_map.mp hkmem
      by_cases hc : w.value = v2
      · rw [if_pos (by simp [hc])]
      · rw [if_neg (by simp [hc])] at hv ⊢
        exact hk w hw hv
    · exact ⟨hm, hk⟩
  | doAdd key a b c =>
    rw [step_doAdd]
    cases validateKey s key with
    | error e => exact ⟨hm, hk⟩
    | ok uid => exact ⟨hm, hk⟩
  | doMultiply key a b =>
    rw [step_doMultiply]
    cases validateKey s key with
    | error e => exact ⟨hm, hk⟩
    | ok uid =>
      dsimp only; split
      · exact ⟨hm, hk⟩
      · exact ⟨hm, hk⟩
  | deleteUser uid =>
    rw [step_deleteUser]; split
    · exact ⟨hm, fun k hkmem => hk k (List.mem_of_mem_filter hkmem)⟩
    · exact ⟨hm, hk⟩

theorem goneKey_run (s : Store) (t : List Event) (v : String) (wft : WfTrace s t)
    (h : GoneKey s v) : GoneKey (run s t) v := by
  induction t generalizing s with
  | nil => exact h
  | cons e t ih => exact ih (step s e) wft.2 (goneKey_step s e v wft.1 h)

theorem deadKey_run (s : Store) (t : List Event) (v : String) (wft : WfTrace s t)
    (h : DeadKey s v) : DeadKey (run s t) v := by
  induction t generalizing s with
  | nil => exact h
  | cons e t ih => exact ih (step s e) wft.2 (deadKey_step s e v wft.1 h)

theorem validateKey_of_deadKey (s : Store) (v : String) (h : DeadKey s v) :
    validateKey s v = .error .keyInvalid := by
  unfold validateKey
  cases hf : s.apiKeys.find? (fun k => k.value == v) with
  | none => rfl
  | some k =>
    have hmem := List.mem_of_find?_eq_some hf
    have hval : k.value = v := by simpa using List.find?_some hf
    simp [h.2 k hmem hval]

/-! ### Counting calculation rows created for a user along a trace -/

theorem step_nextId_le (s : Store) (e : Event) : s.nextId ≤ (step s e).nextId := by
  cases e with
  | register em pw => rw [step_register]; split <;> simp
  | fedLogin ext em =>
    rw [step_fedLogin]
    cases s.users.find? (fun u => u.extId == some ext) <;> simp
  | setPremium uid p => rw [step_setPremium]; split <;> simp
  | mintKey uid v =>
    rw [step_mintKey]
    split
    · split <;> simp
    · simp
  | revokeKey v => rw [step_revokeKey]; split <;> simp
  | doAdd key a b c =>
    rw [step_doAdd]
    cases validateKey s key <;> simp
  | doMultiply key a b =>
    rw [step_doMultiply]
    cases validateKey s key with
    | error e => simp
    | ok uid =>
      dsimp only
      split <;> simp
  | deleteUser uid => rw [step_deleteUser]; split <;> simp

theorem calcsOf_step_length (s : Store) (e : Event) (uid : Nat)
    (hafter : userExists (step s e) uid = true) :
    (calcsOf (step s e) uid).length =
      (calcsOf s uid).length + (if createsCalcFor s uid e then 1 else 0) := by
  cases e with
  | register em pw =>
    rw [step_register]
    split <;> simp [createsCalcFor, calcsOf]
  | fedLogin ext em =>
    rw [step_fedLogin]
    cases s.users.find? (fun u => u.extId == some ext) <;> simp [createsCalcFor, calcsOf]
  | setPremium uid2 p =>
    rw [step_setPremium]
    split <;> simp [createsCalcFor, calcsOf]
  | mintKey uid2 v =>
    rw [step_mintKey]
    split
    · split <;> simp [createsCalcFor, calcsOf]
    · simp [createsCalcFor, calcsOf]
  | revokeKey v =>
    rw [step_revokeKey]
    split <;> simp [createsCalcFor, calcsOf]
  | doAdd key a b c =>
    rw [step_doAdd]
    cases hv : validateKey s key with
    | error e => simp [createsCalcFor, hv]
    | ok u =>
      dsimp only
      simp only [calcsOf, createsCalcFor, hv, List.filter_cons]
      by_cases hc : u = uid
      · subst hc; simp
      · simp [hc]
  | doMultiply key a b =>
    rw [step_doMultiply]
    cases hv : validateKey s key with
    | error e => simp [createsCalcFor, hv]
    | ok u =>
      dsimp only
      by_cases hp : isPremiumUser s u = true
      · rw [if_pos hp]
        simp only [calcsOf, createsCalcFor, hv, List.filter_cons, hp]
        by_cases hc : u = uid
        · subst hc; simp
        · simp [hc]
      · rw [if_neg hp]
        rw [Bool.not_eq_true] at hp
        simp [createsCalcFor, hv, hp]
  | deleteUser uid2 =>
    by_cases hd : userExists s uid2 = true
    · rw [step_deleteUser, if_pos hd] at hafter ⊢
      have hne : uid ≠ uid2 := by
        rw [userExists_iff] at hafter
        obtain ⟨u, hu, hid⟩ := hafter
        have := List.of_mem_filter hu
        simp at this
        rw [← hid]
        exact this
      simp only [calcsOf, createsCalcFor, List.filter_filter]
      have heq :
          s.calcs.filter (fun c => (c.owner == uid) && !(c.owner == uid2)) =
            s.calcs.filter (fun c => c.owner == uid) := by
        apply List.filter_congr
        intro c _
        by_cases hc : c.owner = uid
        · simp [hc, hne, Ne.symm hne]
        · simp [hc]
      rw [heq]
      simp
    · rw [Bool.not_eq_true] at hd
      rw [step_deleteUser, if_neg (by simp [hd])]
      simp [createsCalcFor]

theorem calcsOf_run_length (s : Store) (t : List Event) (uid : Nat) (hinv : StoreInv s)
    (hstart : userExists s uid = true)
    (hend : userExists (run s t) uid = true) :
    (calcsOf (run s t) uid).length = (calcsOf s uid).length + countCreated s uid t := by
  induction t generalizing s with
  | nil => simp [run, countCreated]
  | cons e t ih =>
    have hlt : uid < s.nextId := by
      rw [userExists_iff] at hstart
      obtain ⟨u, hu, hid⟩ := hstart
      exact hid ▸ hinv.usersLt u hu
    have hmid : userExists (step s e) uid = true := by
      by_contra hmidf
      rw [Bool.not_eq_true] at hmidf
      have hg := goneUser_run (step s e) t uid
        ⟨hmidf, lt_of_lt_of_le hlt (step_nextId_le s e)⟩
      rw [show run s (e :: t) = run (step s e) t from rfl] at hend
      exact Bool.false_ne_true (hg.1.symm.trans hend)
    have h1 := calcsOf_step_length s e uid hmid
    have h2 := ih (step s e) (inv_step s e hinv) hmid hend
    rw [show run s (e :: t) = run (step s e) t from rfl, countCreated] at *
    omega

theorem calcsOf_nextId_nil (s : Store) (hinv : StoreInv s) : calcsOf s s.nextId = [] := by
  rw [calcsOf, List.filter_eq_nil_iff]
  intro c hc
  obtain ⟨u, hu, hid⟩ := hinv.calcsOwned c hc
  have hlt := hinv.usersLt u hu
  simp
  omega

/-! ## Helper facts about the sample trace -/

theorem demoTrace_wf : WfTrace initStore demoTrace := by
  simp only [demoTrace, WfTrace, WfEvent]
  decide

theorem demoStore_reachable : Reachable demoStore := ⟨demoTrace, demoTrace_wf, rfl⟩

/-! ## The claims -/

/-- Claim C1: the add operation accepts either 2 or 3 operands and returns
their sum, the third operand being optional and defaulting to 0 (the
additive identity), so every 2-operand call yields the same output as the
legacy 2-operand addition before the 3-operand extension (also at the
endpoint level, where an omitted third operand behaves exactly like an
explicit 0); in particular add(2,3) = 5 and add(2,3,4) = 9. -/
theorem claim_C1_add_two_or_three_operands :
    (∀ a b c : Int, addOp a b (some c) = a + b + c) ∧
    (∀ a b : Int, addOp a b none = addLegacy a b) ∧
    (∀ (s : Store) (key : String) (a b : Int),
      exec s (.doAdd key a b none) = exec s (.doAdd key a b (some 0))) ∧
    addOp 2 3 none = 5 ∧ addOp 2 3 (some 4) = 9 := by
  refine ⟨fun a b c => rfl, fun a b => ?_, fun s key a b => rfl, by decide, by decide⟩
  simp [addOp, addLegacy]

/-- Claim C4: every exposed operation requires exactly one credential kind —
account-management operations a bearer token only, product operations an
API key only — and every request presenting the wrong credential kind, or
none, fails with Unauthorized. -/
theorem claim_C4_dual_credential_authorization :
    (requiredCred .mintKey = .bearerOnly ∧ requiredCred .revokeKey = .bearerOnly ∧
     requiredCred .viewAccount = .bearerOnly ∧ requiredCred .exportAccount = .bearerOnly ∧
     requiredCred .deleteAccount = .bearerOnly ∧ requiredCred .addNumbers = .apiKeyOnly ∧
     requiredCred .multiplyNumbers = .apiKeyOnly ∧ requiredCred .readHistory = .apiKeyOnly) ∧
    (∀ (op : ApiOp) (p : Presented), credMatches (requiredCred op) p = false →
      authorize op p = .error .unauthorized) ∧
    (∀ op : ApiOp, authorize op .absent = .error .unauthorized) ∧
    (∀ (op : ApiOp) (p : Presented), authorize op p = .ok () →
      credMatches (requiredCred op) p = true) := by
  refine ⟨⟨rfl, rfl, rfl, rfl, rfl, rfl, rfl, rfl⟩, ?_, ?_, ?_⟩
  · intro op p h
    simp [authorize, h]
  · intro op
    cases op <;> rfl
  · intro op p h
    by_cases hc : credMatches (requiredCred op) p = true
    · exact hc
    · rw [authorize, if_neg hc] at h
      exact absurd h (by simp)

theorem claim_C4_witness :
    credMatches (requiredCred .mintKey) .apiKey = false ∧
    authorize .mintKey .apiKey = .error .unauthorized ∧
    credMatches (requiredCred .addNumbers) .bearer = false ∧
    authorize .addNumbers .bearer = .error .unauthorized ∧
    authorize .exportAccount .absent = .error .unauthorized :=
  ⟨by decide,
   claim_C4_dual_credential_authorization.2.1 .mintKey .apiKey (by decide),
   by decide,
   claim_C4_dual_credential_authorization.2.1 .addNumbers .bearer (by decide),
   claim_C4_dual_credential_authorization.2.2.1 .exportAccount⟩

/-- Claim C7: multiply is premium-gated — with a valid API key, a call for a
non-premium owner fails with the premium-required error, and for a premium
owner it returns the arithmetic product. -/
theorem claim_C7_multiply_premium_gated :
    ∀ (s : Store) (key : String) (uid : Nat) (a b : Int),
      validateKey s key = .ok uid →
      (isPremiumUser s uid = false →
        (exec s (.doMultiply key a b)).1 = .error .premiumRequired) ∧
      (isPremiumUser s uid = true →
        (exec s (.doMultiply key a b)).1 = .ok (.num (a * b))) := by
  intro s key uid a b hv
  constructor
  · intro hp
    simp [exec, execDoMultiply, hv, hp]
  · intro hp
    simp [exec, execDoMultiply, hv, hp]

theorem claim_C7_witness :
    validateKey demoStore "KEYA" = .ok 0 ∧ isPremiumUser demoStore 0 = true ∧
    (exec demoStore (.doMultiply "KEYA" 2 3)).1 = .ok (.num 6) ∧
    validateKey demoStore "KEYB" = .ok 1 ∧ isPremiumUser demoStore 1 = false ∧
    (exec demoStore (.doMultiply "KEYB" 2 3)).1 = .error .premiumRequired :=
  ⟨by rfl, by rfl,
   (claim_C7_multiply_premium_gated demoStore "KEYA" 0 2 3 (by rfl)).2 (by rfl),
   by rfl, by rfl,
   (claim_C7_multiply_premium_gated demoStore "KEYB" 1 2 3 (by rfl)).1 (by rfl)⟩

/-- Claim C9, counterexample: the claim says the thrown error message is the
body's `detail` field whenever it is present; but for a non-ok response
whose `detail` is present and equal to the empty string, `ApiClient.request`
throws 'Request failed' (JavaScript `||` treats the empty string as falsy),
not the detail value. -/
theorem claim_C9_counterexample :
    (HttpResp.mk false (JsonBody.mk (some "") [])).ok = false ∧
    (HttpResp.mk false (JsonBody.mk (some "") [])).body.detail = some "" ∧
    request (HttpResp.mk false (JsonBody.mk (some "") [])) = .error "Request failed" ∧
    request (HttpResp.mk false (JsonBody.mk (some "") [])) ≠ .error "" := by
  refine ⟨rfl, rfl, rfl, ?_⟩
  intro h
  rw [show request (HttpResp.mk false (JsonBody.mk (some "") [])) =
        .error "Request failed" from rfl] at h
  simpa using h

/-- Claim C9, amended: for every call through `ApiClient.request`, if the
response is not ok the call throws an Error whose message is the body's
`detail` field when present and non-empty, and 'Request failed' when the
field is absent or empty; no value is returned on error. If the response is
ok the parsed JSON body is returned. -/
theorem claim_C9_request_error_surfacing :
    ∀ r : HttpResp,
      (r.ok = true → request r = .ok r.body) ∧
      (r.ok = false →
        (∀ s, r.body.detail = some s → s ≠ "" → request r = .error s) ∧
        ((r.body.detail = none ∨ r.body.detail = some "") →
          request r = .error "Request failed") ∧
        ∃ msg, request r = .error msg) := by
  intro r
  constructor
  · intro hok
    simp [request, hok]
  · intro hok
    refine ⟨?_, ?_, ?_⟩
    · intro s hs hne
      simp [request, hok, jsDetailOr, hs, hne]
    · intro hd
      rcases hd with hd | hd <;> simp [request, hok, jsDetailOr, hd]
    · exact ⟨jsDetailOr r.body.detail "Request failed", by simp [request, hok]⟩

theorem claim_C9_witness :
    (HttpResp.mk false (JsonBody.mk (some "boom") [])).ok = false ∧
    (HttpResp.mk false (JsonBody.mk (some "boom") [])).body.detail = some "boom" ∧
    request (HttpResp.mk false (JsonBody.mk (some "boom") [])) = .error "boom" ∧
    (HttpResp.mk true (JsonBody.mk none [])).ok = true ∧
    request (HttpResp.mk true (JsonBody.mk none [])) = .ok (JsonBody.mk none []) :=
  ⟨rfl, rfl,
   ((claim_C9_request_error_surfacing (HttpResp.mk false (JsonBody.mk (some "boom") []))).2
      rfl).1 "boom" rfl (by decide),
   rfl,
   (claim_C9_request_error_surfacing (HttpResp.mk true (JsonBody.mk none []))).1 rfl⟩

/-- Claim C10: whenever the client's `refreshUser` call fails, the client
transitions to the fully logged-out state — stored token deleted, API
client token null, user null, `isAuthenticated` false — identical to the
state `logout` produces, so it never remains authenticated holding a token
the server has rejected; and `logout` is idempotent on this state. -/
theorem claim_C10_refresh_failure_logs_out :
    (∀ (s : ClientState) (msg : String),
      refreshUser (.error msg) s =
        { storedToken := none, apiToken := none, user := none, isAuthenticated := false } ∧
      (refreshUser (.error msg) s).storedToken = none ∧
      (refreshUser (.error msg) s).apiToken = none ∧
      (refreshUser (.error msg) s).user = none ∧
      (refreshUser (.error msg) s).isAuthenticated = false ∧
      refreshUser (.error msg) s = logout s) ∧
    (∀ s : ClientState, logout (logout s) = logout s) :=
  ⟨fun s msg => ⟨rfl, rfl, rfl, rfl, rfl, rfl⟩, fun s => rfl⟩

/-- Claim C2: delete(userId) removes the User row and, in the same atomic
step, every ApiKey and Calculation row owned by that user; consequently in
no reachable state is a user absent while an ApiKey or Calculation row
owned by it remains (no orphaned dependents). -/
theorem claim_C2_delete_cascade_no_orphans :
    ∀ s : Store, Reachable s →
      ((∀ k ∈ s.apiKeys, ∃ u ∈ s.users, u.id = k.owner) ∧
       (∀ c ∈ s.calcs, ∃ u ∈ s.users, u.id = c.owner)) ∧
      (∀ uid, userExists s uid = true →
        (exec s (.deleteUser uid)).1 = .ok .unit ∧
        userExists (step s (.deleteUser uid)) uid = false ∧
        (∀ k ∈ (step s (.deleteUser uid)).apiKeys, k.owner ≠ uid) ∧
        (∀ c ∈ (step s (.deleteUser uid)).calcs, c.owner ≠ uid)) := by
  intro s hs
  have hinv := inv_reachable s hs
  refine ⟨⟨hinv.keysOwned, hinv.calcsOwned⟩, ?_⟩
  intro uid hu
  refine ⟨?_, ?_, ?_, ?_⟩
  · simp [exec, execDeleteUser, hu]
  · rw [step_deleteUser, if_pos hu, userExists_eq_false_iff]
    intro u humem
    have := List.of_mem_filter humem
    simpa using this
  · rw [step_deleteUser, if_pos hu]
    intro k hk
    have := List.of_mem_filter hk
    simpa using this
  · rw [step_deleteUser, if_pos hu]
    intro c hc
    have := List.of_mem_filter hc
    simpa using this

theorem claim_C2_witness :
    userExists demoStore 0 = true ∧
    (exec demoStore (.deleteUser 0)).1 = .ok .unit ∧
    userExists (step demoStore (.deleteUser 0)) 0 = false ∧
    (∀ k ∈ (step demoStore (.deleteUser 0)).apiKeys, k.owner ≠ 0) ∧
    (∀ c ∈ (step demoStore (.deleteUser 0)).calcs, c.owner ≠ 0) := by
  have H := (claim_C2_delete_cascade_no_orphans demoStore demoStore_reachable).2 0 (by rfl)
  exact ⟨by rfl, H.1, H.2.1, H.2.2.1, H.2.2.2⟩

/-- Claim C6: for every user and API key, validate immediately after mint
returns that user's id; and after revoke the key never validates again in
any later well-formed state — revocation is permanent. -/
theorem claim_C6_revocation_permanent :
    ∀ s : Store, Reachable s →
      (∀ (uid : Nat) (v : String), userExists s uid = true → v ∉ s.minted →
        (exec s (.mintKey uid v)).1 = .ok (.key v) ∧
        validateKey (step s (.mintKey uid v)) v = .ok uid) ∧
      (∀ v : String, keyStored s v = true →
        validateKey (step s (.revokeKey v)) v = .error .keyInvalid ∧
        (∀ t, WfTrace (step s (.revokeKey v)) t →
          validateKey (run (step s (.revokeKey v)) t) v = .error .keyInvalid)) := by
  intro s hs
  have hinv := inv_reachable s hs
  constructor
  · intro uid v hu hv
    have hks : keyStored s v = false := by
      rw [keyStored_eq_false_iff]
      intro k hk hval
      exact hv (hval ▸ hinv.keysMinted k hk)
    constructor
    · simp [exec, execMintKey, hu, hks]
    · rw [step_mintKey, if_pos hu, if_neg (by simp [hks])]
      have hfind :
          List.find? (fun k => k.value == v)
              ({ value := v, owner := uid, active := true, createdAt := s.clock } :: s.apiKeys) =
            some { value := v, owner := uid, active := true, createdAt := s.clock } :=
        List.find?_cons_of_pos _ (by simp)
      simp [validateKey, hfind]
  · intro v hv
    have hmint : v ∈ s.minted := by
      rw [keyStored_iff] at hv
      obtain ⟨k, hk, hval⟩ := hv
      exact hval ▸ hinv.keysMinted k hk
    have hdead : DeadKey (step s (.revokeKey v)) v := by
      rw [step_revokeKey, if_pos hv]
      refine ⟨hmint, ?_⟩
      intro k hk hval
      obtain ⟨w, hw, rfl⟩ := List.mem_map.mp hk
      by_cases hc : w.value = v
      · rw [if_pos (by simp [hc])]
      · rw [if_neg (by simp [hc])] at hval
        exact absurd hval hc
    refine ⟨validateKey_of_deadKey _ v hdead, ?_⟩
    intro t ht
    exact validateKey_of_deadKey _ v (deadKey_run _ t v ht hdead)

theorem claim_C6_witness :
    userExists demoStore 0 = true ∧ "KEYC" ∉ demoStore.minted ∧
    (exec demoStore (.mintKey 0 "KEYC")).1 = .ok (.key "KEYC") ∧
    validateKey (step demoStore (.mintKey 0 "KEYC")) "KEYC" = .ok 0 ∧
    keyStored demoStore "KEYB" = true ∧
    validateKey (step demoStore (.revokeKey "KEYB")) "KEYB" = .error .keyInvalid ∧
    WfTrace (step demoStore (.revokeKey "KEYB")) [.mintKey 1 "KEYD"] ∧
    validateKey (run (step demoStore (.revokeKey "KEYB")) [.mintKey 1 "KEYD"]) "KEYB" =
      .error .keyInvalid := by
  have H := claim_C6_revocation_permanent demoStore demoStore_reachable
  have hwf : WfTrace (step demoStore (.revokeKey "KEYB")) [.mintKey 1 "KEYD"] := by
    simp only [WfTrace, WfEvent]
    refine ⟨by decide, trivial⟩
  refine ⟨by rfl, by decide, (H.1 0 "KEYC" (by rfl) (by decide)).1,
    (H.1 0 "KEYC" (by rfl) (by decide)).2, by rfl,
    (H.2 "KEYB" (by rfl)).1, hwf, (H.2 "KEYB" (by rfl)).2 [.mintKey 1 "KEYD"] hwf⟩

/-- Claim C8: federated login is idempotent in user creation — a first-time
federated sign-in creates a new local user bound to the external identity,
a repeated login with the same external identity returns exactly that local
user and changes nothing, and in no reachable state do two distinct local
users share one external identity. -/
theorem claim_C8_federated_login_idempotent :
    ∀ s : Store, Reachable s → ∀ ext em : String,
      (∀ u1 ∈ s.users, ∀ u2 ∈ s.users,
        u1.extId = some ext → u2.extId = some ext → u1 = u2) ∧
      ((∀ u ∈ s.users, u.extId ≠ some ext) →
        (exec s (.fedLogin ext em)).1 = .ok (.uid s.nextId) ∧
        ∃ u ∈ (step s (.fedLogin ext em)).users, u.id = s.nextId ∧ u.extId = some ext) ∧
      (∀ u ∈ s.users, u.extId = some ext →
        exec s (.fedLogin ext em) = (.ok (.uid u.id), s)) := by
  intro s hs ext em
  have hinv := inv_reachable s hs
  refine ⟨fun u1 h1 u2 h2 e1 e2 => hinv.extUnique u1 h1 u2 h2 ext e1 e2, ?_, ?_⟩
  · intro hnone
    have hf : s.users.find? (fun u => u.extId == some ext) = none := by
      rw [List.find?_eq_none]
      intro u hu
      simp
      exact hnone u hu
    constructor
    · simp [exec, execFedLogin, hf]
    · rw [step_fedLogin, hf]
      exact ⟨_, List.mem_cons_self _ _, rfl, rfl⟩
  · intro u hu hext
    cases hf : s.users.find? (fun w => w.extId == some ext) with
    | none =>
      rw [List.find?_eq_none] at hf
      exact absurd (by simp [hext]) (hf u hu)
    | some w =>
      have hwmem := List.mem_of_find?_eq_some hf
      have hwext : w.extId = some ext := by simpa using List.find?_some hf
      have hwu : w = u := hinv.extUnique w hwmem u hu ext hwext hext
      subst hwu
      simp [exec, execFedLogin, hf]

theorem claim_C8_witness :
    (∀ u ∈ (initStore : Store).users, u.extId ≠ some "gid-1") ∧
    (exec initStore (.fedLogin "gid-1" "carol@example.com")).1 = .ok (.uid 0) ∧
    (∃ u ∈ (step initStore (.fedLogin "gid-1" "carol@example.com")).users,
      u.id = 0 ∧ u.extId = some "gid-1") ∧
    (∀ u ∈ (step initStore (.fedLogin "gid-1" "carol@example.com")).users,
      u.extId = some "gid-1" →
        exec (step initStore (.fedLogin "gid-1" "carol@example.com"))
            (.fedLogin "gid-1" "other@example.com") =
          (.ok (.uid u.id), step initStore (.fedLogin "gid-1" "carol@example.com"))) := by
  have H0 := claim_C8_federated_login_idempotent initStore ⟨[], trivial, rfl⟩ "gid-1"
    "carol@example.com"
  have hnone : ∀ u ∈ (initStore : Store).users, u.extId ≠ some "gid-1" := by
    intro u hu
    simp [initStore] at hu
  have H1 := claim_C8_federated_login_idempotent
    (step initStore (.fedLogin "gid-1" "carol@example.com"))
    ⟨[.fedLogin "gid-1" "carol@example.com"], ⟨trivial, trivial⟩, rfl⟩
    "gid-1" "other@example.com"
  exact ⟨hnone, (H0.2.1 hnone).1, (H0.2.1 hnone).2, H1.2.2⟩

/-- Claim C3: deletion is a one-shot, irreversible transition — a delete on
a nonexistent or already-deleted user fails with NotFound (never silent
success), and after a successful delete every subsequent product or account
call in any later well-formed state using that user's prior API key or
bearer token fails with KeyInvalid, TokenInvalid/TokenExpired, or
NotFound. -/
theorem claim_C3_delete_one_shot_irreversible :
    ∀ s : Store, Reachable s → ∀ uid : Nat,
      (userExists s uid = false → (exec s (.deleteUser uid)).1 = .error .notFound) ∧
      (userExists s uid = true →
        ∀ t, WfTrace (step s (.deleteUser uid)) t →
          userExists (run (step s (.deleteUser uid)) t) uid = false ∧
          (exec (run (step s (.deleteUser uid)) t) (.deleteUser uid)).1 = .error .notFound ∧
          (∀ v, (∃ k ∈ s.apiKeys, k.value = v ∧ k.owner = uid) →
            validateKey (run (step s (.deleteUser uid)) t) v = .error .keyInvalid ∧
            (∀ a b c, (exec (run (step s (.deleteUser uid)) t) (.doAdd v a b c)).1 =
              .error .keyInvalid) ∧
            (∀ a b, (exec (run (step s (.deleteUser uid)) t) (.doMultiply v a b)).1 =
              .error .keyInvalid)) ∧
          (∀ (tok : BearerToken) (now : Nat), tok.uid = uid →
            ∃ err, validateToken (run (step s (.deleteUser uid)) t) now tok = .error err ∧
              (err = .tokenInvalid ∨ err = .tokenExpired ∨ err = .notFound) ∧
              getMe (run (step s (.deleteUser uid)) t) now tok = .error err ∧
              exportViaToken (run (step s (.deleteUser uid)) t) now tok = .error err ∧
              (deleteViaToken (run (step s (.deleteUser uid)) t) now tok).1 = .error err)) := by
  intro s hs uid
  have hinv := inv_reachable s hs
  constructor
  · intro hne
    simp [exec, execDeleteUser, hne]
  · intro hu t ht
    have hlt : uid < s.nextId := by
      rw [userExists_iff] at hu
      obtain ⟨u, humem, hid⟩ := hu
      exact hid ▸ hinv.usersLt u humem
    have hu2 : userExists s uid = true := by
      rw [userExists_iff] at hu ⊢
      exact hu
    have hgone1 : GoneUser (step s (.deleteUser uid)) uid := by
      constructor
      · rw [step_deleteUser, if_pos hu2, userExists_eq_false_iff]
        intro u humem
        have := List.of_mem_filter humem
        simpa using this
      · exact lt_of_lt_of_le hlt (step_nextId_le s _)
    have hgone : GoneUser (run (step s (.deleteUser uid)) t) uid :=
      goneUser_run _ t uid hgone1
    refine ⟨hgone.1, ?_, ?_, ?_⟩
    · simp [exec, execDeleteUser, hgone.1]
    · intro v hv
      obtain ⟨k, hk, hkv, hko⟩ := hv
      have hminted : v ∈ s.minted := hkv ▸ hinv.keysMinted k hk
      have hgonek1 : GoneKey (step s (.deleteUser uid)) v := by
        refine ⟨?_, ?_⟩
        · rw [step_deleteUser, if_pos hu2]
          exact hminted
        · rw [step_deleteUser, if_pos hu2]
          intro k2 hk2 hval
          have hk2mem := List.mem_of_mem_filter hk2
          have hk2f := List.of_mem_filter hk2
          simp at hk2f
          have hkk : k2 = k := by
            apply List.inj_on_of_nodup_map hinv.keysNodup hk2mem hk
            rw [hval, hkv]
          rw [hkk, hko] at hk2f
          exact hk2f rfl
      have hgonek : GoneKey (run (step s (.deleteUser uid)) t) v :=
        goneKey_run _ t v ht hgonek1
      have hvk : validateKey (run (step s (.deleteUser uid)) t) v = .error .keyInvalid :=
        validateKey_of_deadKey _ v (goneKey_deadKey _ v hgonek)
      refine ⟨hvk, ?_, ?_⟩
      · intro a b c
        simp [exec, execDoAdd, hvk]
      · intro a b
        simp [exec, execDoMultiply, hvk]
    · intro tok now htok
      have huser : userExists (run (step s (.deleteUser uid)) t) tok.uid = false := by
        rw [htok]
        exact hgone.1
      have hmain : ∃ err,
          validateToken (run (step s (.deleteUser uid)) t) now tok = .error err ∧
            (err = .tokenInvalid ∨ err = .tokenExpired ∨ err = .notFound) := by
        by_cases hsig : tok.sigOk = true
        · by_cases hexp : tok.exp < now
          · exact ⟨.tokenExpired, by simp [validateToken, hsig, hexp], Or.inr (Or.inl rfl)⟩
          · exact ⟨.notFound, by simp [validateToken, hsig, hexp, huser], Or.inr (Or.inr rfl)⟩
        · rw [Bool.not_eq_true] at hsig
          exact ⟨.tokenInvalid, by simp [validateToken, hsig], Or.inl rfl⟩
      obtain ⟨err, hvt, herr⟩ := hmain
      exact ⟨err, hvt, herr, by simp [getMe, hvt, Except.bind],
        by simp [exportViaToken, hvt, Except.bind], by simp [deleteViaToken, hvt]⟩

theorem claim_C3_witness :
    userExists demoStore 2 = false ∧
    (exec demoStore (.deleteUser 2)).1 = .error .notFound ∧
    userExists demoStore 1 = true ∧
    WfTrace (step demoStore (.deleteUser 1)) [.doAdd "KEYA" 1 1 none] ∧
    userExists (run (step demoStore (.deleteUser 1)) [.doAdd "KEYA" 1 1 none]) 1 = false ∧
    (exec (run (step demoStore (.deleteUser 1)) [.doAdd "KEYA" 1 1 none])
        (.deleteUser 1)).1 = .error .notFound ∧
    (∃ k ∈ demoStore.apiKeys, k.value = "KEYB" ∧ k.owner = 1) ∧
    validateKey (run (step demoStore (.deleteUser 1)) [.doAdd "KEYA" 1 1 none]) "KEYB" =
      .error .keyInvalid ∧
    (∃ err,
      validateToken (run (step demoStore (.deleteUser 1)) [.doAdd "KEYA" 1 1 none]) 0
          ⟨1, 100, true⟩ = .error err ∧
        (err = .tokenInvalid ∨ err = .tokenExpired ∨ err = .notFound) ∧
        getMe (run (step demoStore (.deleteUser 1)) [.doAdd "KEYA" 1 1 none]) 0
            ⟨1, 100, true⟩ = .error err ∧
        exportViaToken (run (step demoStore (.deleteUser 1)) [.doAdd "KEYA" 1 1 none]) 0
            ⟨1, 100, true⟩ = .error err ∧
        (deleteViaToken (run (step demoStore (.deleteUser 1)) [.doAdd "KEYA" 1 1 none]) 0
            ⟨1, 100, true⟩).1 = .error err) := by
  have HC := claim_C3_delete_one_shot_irreversible demoStore demoStore_reachable
  have H := (HC 1).2 (by rfl) [.doAdd "KEYA" 1 1 none] ⟨trivial, trivial⟩
  exact ⟨by rfl, (HC 2).1 (by rfl), by rfl, ⟨trivial, trivial⟩, H.1, H.2.1,
    by decide, (H.2.2.1 "KEYB" (by decide)).1, H.2.2.2 ⟨1, 100, true⟩ 0 rfl⟩

/-- Claim C5: export is complete — for a user registered at some reachable
state, after any later well-formed trace in which the user still exists,
the exported structure contains the user's fields plus exactly the
calculation rows owned by the user at call time, each exactly once with no
truncation, and the length of the exported calculation list equals the
number of calculations created for that user since account creation. -/
theorem claim_C5_export_complete :
    ∀ s : Store, Reachable s → ∀ em pw : String,
      emailTaken s em = false →
      ∀ t, WfTrace (step s (.register em pw)) t →
        userExists (run (step s (.register em pw)) t) s.nextId = true →
        ∃ u, exportData (run (step s (.register em pw)) t) s.nextId =
            .ok (u, calcsOf (run (step s (.register em pw)) t) s.nextId) ∧
          (∀ c, c ∈ calcsOf (run (step s (.register em pw)) t) s.nextId ↔
            (c ∈ (run (step s (.register em pw)) t).calcs ∧ c.owner = s.nextId)) ∧
          (calcsOf (run (step s (.register em pw)) t) s.nextId).Nodup ∧
          (calcsOf (run (step s (.register em pw)) t) s.nextId).length =
            countCreated (step s (.register em pw)) s.nextId t := by
  intro s hs em pw hem t ht hu
  have hinv := inv_reachable s hs
  have hinv1 : StoreInv (step s (.register em pw)) := inv_step _ _ hinv
  have hinvT : StoreInv (run (step s (.register em pw)) t) := inv_run _ t hinv1
  have hstart : userExists (step s (.register em pw)) s.nextId = true := by
    rw [step_register, if_neg (by simp [hem]), userExists_iff]
    exact ⟨_, List.mem_cons_self _ _, rfl⟩
  obtain ⟨u, hfind, humem, huid⟩ := findUser_of_userExists _ _ hu
  refine ⟨u, ?_, ?_, ?_, ?_⟩
  · simp [exportData, hfind]
  · intro c
    simp [calcsOf, List.mem_filter]
  · exact (List.Nodup.of_map _ hinvT.calcsNodup).filter _
  · have hzero : calcsOf (step s (.register em pw)) s.nextId = [] := by
      rw [step_register, if_neg (by simp [hem])]
      exact calcsOf_nextId_nil s hinv
    have hrun := calcsOf_run_length (step s (.register em pw)) t s.nextId hinv1 hstart hu
    rw [hzero] at hrun
    simpa using hrun

theorem claim_C5_witness :
    emailTaken initStore "dora@example.com" = false ∧
    WfTrace (step initStore (.register "dora@example.com" "pw"))
      [.mintKey 0 "K0", .doAdd "K0" 1 2 none, .doAdd "K0" 3 4 (some 5)] ∧
    userExists
      (run (step initStore (.register "dora@example.com" "pw"))
        [.mintKey 0 "K0", .doAdd "K0" 1 2 none, .doAdd "K0" 3 4 (some 5)]) 0 = true ∧
    (∃ u, exportData
          (run (step initStore (.register "dora@example.com" "pw"))
            [.mintKey 0 "K0", .doAdd "K0" 1 2 none, .doAdd "K0" 3 4 (some 5)]) 0 =
        .ok (u, calcsOf
          (run (step initStore (.register "dora@example.com" "pw"))
            [.mintKey 0 "K0", .doAdd "K0" 1 2 none, .doAdd "K0" 3 4 (some 5)]) 0) ∧
      (∀ c, c ∈ calcsOf
          (run (step initStore (.register "dora@example.com" "pw"))
            [.mintKey 0 "K0", .doAdd "K0" 1 2 none, .doAdd "K0" 3 4 (some 5)]) 0 ↔
        (c ∈ (run (step initStore (.register "dora@example.com" "pw"))
            [.mintKey 0 "K0", .doAdd "K0" 1 2 none, .doAdd "K0" 3 4 (some 5)]).calcs ∧
          c.owner = 0)) ∧
      (calcsOf
        (run (step initStore (.register "dora@example.com" "pw"))
          [.mintKey 0 "K0", .doAdd "K0" 1 2 none, .doAdd "K0" 3 4 (some 5)]) 0).Nodup ∧
      (calcsOf
        (run (step initStore (.register "dora@example.com" "pw"))
          [.mintKey 0 "K0", .doAdd "K0" 1 2 none, .doAdd "K0" 3 4 (some 5)]) 0).length =
        countCreated (step initStore (.register "dora@example.com" "pw")) 0
          [.mintKey 0 "K0", .doAdd "K0" 1 2 none, .doAdd "K0" 3 4 (some 5)]) := by
  have hwf : WfTrace (step initStore (.register "dora@example.com" "pw"))
      [.mintKey 0 "K0", .doAdd "K0" 1 2 none, .doAdd "K0" 3 4 (some 5)] := by
    simp only [WfTrace, WfEvent]
    exact ⟨by decide, trivial, trivial, trivial⟩
  exact ⟨by rfl, hwf, by rfl,
    claim_C5_export_complete initStore ⟨[], trivial, rfl⟩ "dora@example.com" "pw" (by rfl)
      [.mintKey 0 "K0", .doAdd "K0" 1 2 none, .doAdd "K0" 3 4 (some 5)] hwf (by rfl)⟩
